import Mathlib

/-!
Shallow embedding of the rack-thermal visualization core
(`extension.py`, class `MyExtension`): the color classification,
the recompute pass (`_recompute_and_color`), the per-prim coloring
(`_apply_color_for_prim`) and the restore pass (`_restore_colors`).

Real-valued quantities of the source (heat load, flow rates, ΔT, cp,
colors) are modelled as rationals; USD attributes as an optional value
per attribute name, where a present attribute carries an authored value
(the source treats an unauthored attribute like an absent one on every
read path, and every write authors a value).
-/

/-- A 3-component color (`Gf.Vec3f`). -/
structure Color where
  r : ℚ
  g : ℚ
  b : ℚ
deriving DecidableEq, Repr

/-- An authored USD attribute value: a number (parsable by `float(...)`),
a color array (`primvars:displayColor` payload), or an opaque value that
`float(...)` fails on. -/
inductive AttrVal where
  | num (q : ℚ)
  | colorArr (cs : List Color)
  | opaqueVal
deriving DecidableEq, Repr

/-- `float(attr.Get())`: succeeds exactly on numeric values. -/
def AttrVal.asFloat : AttrVal → Option ℚ
  | .num q => some q
  | _ => none

/-- A prim: stable path, validity flag (`IsValid`), and its authored
attributes by name. -/
structure Prim where
  path : String
  valid : Bool
  attrs : String → Option AttrVal

/-- `prim.GetAttribute(name)` restricted to authored attributes. -/
def getAttr (p : Prim) (name : String) : Option AttrVal :=
  p.attrs name

/-- Create-if-absent then `Set`: upsert of an authored attribute. -/
def setAttr (p : Prim) (name : String) (v : AttrVal) : Prim :=
  { p with attrs := fun m => if m = name then some v else p.attrs m }

/-- `RemoveProperty`. -/
def removeAttr (p : Prim) (name : String) : Prim :=
  { p with attrs := fun m => if m = name then none else p.attrs m }

/-- The override cache `self._orig_colors`: insertion-ordered map from
prim path to the cached original display color, `none` marking
"had no authored color". -/
abbrev Cache := List (String × Option AttrVal)

/-- Dict lookup on the cache. -/
def lookupCache (c : Cache) (path : String) : Option (Option AttrVal) :=
  (c.find? (fun e => decide (e.1 = path))).map (·.2)

/-- Configuration read from the UI models at the top of
`_recompute_and_color`. -/
structure Config where
  cp : ℚ
  targetDt : ℚ
  mode : Int
  enableOverride : Bool

/-- Engine state: the optional stage (traversal order of `stage.Traverse()`)
and the override cache. -/
structure EngineState where
  stage : Option (List Prim)
  origColors : Cache

/-- `tol = 1e-3`. -/
def tol : ℚ := 1/1000

/-- The floor `1e-6` that `cp` is clamped to. -/
def cpFloor : ℚ := 1/1000000

/-- The four discrete color states of the classification. -/
inductive ColorState where
  | Neutral
  | Under
  | Match
  | Over
deriving DecidableEq, Repr

/-- The classification of `_apply_color_for_prim` lines 297-306:
gray when the target is non-positive, else green / yellow / red
by comparison with the target within tolerance. -/
def classify (delta_t target_dt : ℚ) : ColorState :=
  if target_dt ≤ 0 then .Neutral
  else if delta_t < target_dt - tol then .Under
  else if |delta_t - target_dt| ≤ tol then .Match
  else .Over

/-- The concrete `Gf.Vec3f` written for each state. -/
def colorOf : ColorState → Color
  | .Neutral => ⟨1/2, 1/2, 1/2⟩
  | .Under => ⟨0, 1, 0⟩
  | .Match => ⟨1, 1, 0⟩
  | .Over => ⟨1, 0, 0⟩

/-- `_apply_color_for_prim`: record the current display color in the
cache unless the path is already a key, then write the classified
color. -/
def apply_color_for_prim (p : Prim) (delta_t target_dt : ℚ) (cache : Cache) :
    Prim × Cache :=
  let cache' :=
    if (lookupCache cache p.path).isSome then cache
    else cache ++ [(p.path, getAttr p "primvars:displayColor")]
  (setAttr p "primvars:displayColor"
    (.colorArr [colorOf (classify delta_t target_dt)]), cache')

/-- The body of the traversal loop of `_recompute_and_color` for one
prim: skip invalid prims, prims without a parsable positive
`user:rackPowerW`; in design mode (`mode == 0`) require a positive
target, write `user:mdotRequired` and color with the target as ΔT;
in audit mode require a parsable positive `user:mdotActual` and color
with ΔT = power / (cp * mdot). `cp` is clamped to `cpFloor`. -/
def processPrim (cfg : Config) (p : Prim) (cache : Cache) : Prim × Cache :=
  if p.valid then
    match getAttr p "user:rackPowerW" with
    | none => (p, cache)
    | some v =>
      match v.asFloat with
      | none => (p, cache)
      | some power =>
        if power ≤ 0 then (p, cache)
        else
          if cfg.mode = 0 then
            if cfg.targetDt ≤ 0 then (p, cache)
            else
              let m_required := power / (max cfg.cp cpFloor * cfg.targetDt)
              let p' := setAttr p "user:mdotRequired" (.num m_required)
              apply_color_for_prim p' cfg.targetDt cfg.targetDt cache
          else
            match getAttr p "user:mdotActual" with
            | none => (p, cache)
            | some mv =>
              match mv.asFloat with
              | none => (p, cache)
              | some mdot =>
                if mdot ≤ 0 then (p, cache)
                else
                  let delta_t := power / (max cfg.cp cpFloor * mdot)
                  apply_color_for_prim p delta_t cfg.targetDt cache
  else (p, cache)

/-- The traversal loop of `_recompute_and_color`, threading the cache. -/
def fullPassAux (cfg : Config) : List Prim → Cache → List Prim × Cache
  | [], cache => ([], cache)
  | p :: rest, cache =>
    let pc := processPrim cfg p cache
    let rc := fullPassAux cfg rest pc.2
    (pc.1 :: rc.1, rc.2)

/-- The prim update of the restore loop body for one cache entry:
skip prims that do not resolve or are invalid; with the absent marker
remove the display-color attribute, otherwise set it back. -/
def restoreFun (orig : Option AttrVal) (p : Prim) : Prim :=
  if p.valid then
    match orig with
    | none => removeAttr p "primvars:displayColor"
    | some v => setAttr p "primvars:displayColor" v
  else p

/-- `stage.GetPrimAtPath(path)` followed by an update: only the first
prim with the path is touched. -/
def updateFirstAt : List Prim → String → (Prim → Prim) → List Prim
  | [], _, _ => []
  | p :: rest, path, f =>
    if p.path = path then f p :: rest else p :: updateFirstAt rest path f

/-- One iteration of the restore loop. -/
def restoreEntry (st : List Prim) (path : String) (orig : Option AttrVal) :
    List Prim :=
  updateFirstAt st path (restoreFun orig)

/-- `_restore_colors`: no stage means return with the cache untouched;
otherwise restore every cached entry and clear the cache. -/
def restore_colors (s : EngineState) : EngineState :=
  match s.stage with
  | none => s
  | some st =>
      { stage := some (s.origColors.foldl
          (fun acc e => restoreEntry acc e.1 e.2) st),
        origColors := [] }

/-- `_recompute_and_color`: no stage means return unchanged; override
disabled means restore; otherwise clear the cache and run the full
pass. -/
def recompute_and_color (cfg : Config) (s : EngineState) : EngineState :=
  match s.stage with
  | none => s
  | some st =>
      if cfg.enableOverride then
        let r := fullPassAux cfg st []
        { stage := some r.1, origColors := r.2 }
      else restore_colors s

/-! ### Derived characterizations of the loop body -/

/-- Whether the loop body reaches `_apply_color_for_prim` for this prim
under this configuration. -/
def colored (cfg : Config) (p : Prim) : Bool :=
  if p.valid then
    match getAttr p "user:rackPowerW" with
    | none => false
    | some v =>
      match v.asFloat with
      | none => false
      | some power =>
        if power ≤ 0 then false
        else
          if cfg.mode = 0 then decide (¬ cfg.targetDt ≤ 0)
          else
            match getAttr p "user:mdotActual" with
            | none => false
            | some mv =>
              match mv.asFloat with
              | none => false
              | some mdot => decide (¬ mdot ≤ 0)
  else false

/-- The parsed heat load (0 when absent or unparsable). -/
def power_of (p : Prim) : ℚ :=
  ((getAttr p "user:rackPowerW").bind AttrVal.asFloat).getD 0

/-- The parsed actual flow (0 when absent or unparsable). -/
def mdot_of (p : Prim) : ℚ :=
  ((getAttr p "user:mdotActual").bind AttrVal.asFloat).getD 0

/-- The ΔT handed to the classification when the prim is colored. -/
def delta_of (cfg : Config) (p : Prim) : ℚ :=
  if cfg.mode = 0 then cfg.targetDt
  else power_of p / (max cfg.cp cpFloor * mdot_of p)

/-- The cache-free prim effect of the loop body. -/
def procPrim (cfg : Config) (p : Prim) : Prim :=
  if colored cfg p then
    setAttr
      (if cfg.mode = 0 then
        setAttr p "user:mdotRequired"
          (.num (power_of p / (max cfg.cp cpFloor * cfg.targetDt)))
      else p)
      "primvars:displayColor"
      (.colorArr [colorOf (classify (delta_of cfg p) cfg.targetDt)])
  else p

/-- The cache records accumulated by one full pass over a stage with
distinct paths: one entry per colored prim, carrying the display color
it had before the pass. -/
def passRecords (cfg : Config) (stage : List Prim) : Cache :=
  (stage.filter (colored cfg)).map
    (fun p => (p.path, getAttr p "primvars:displayColor"))

/-- The per-prim effect of the whole restore loop. -/
def restoreAs (cache : Cache) (p : Prim) : Prim :=
  match lookupCache cache p.path with
  | none => p
  | some o => restoreFun o p

/-- A rack prim with heat load 1000 W, actual flow 0.05 kg/s and an
authored blue display color. -/
def rackP : Prim :=
  ⟨"/rack", true, fun n =>
    if n = "user:rackPowerW" then some (.num 1000)
    else if n = "user:mdotActual" then some (.num (1/20))
    else if n = "primvars:displayColor" then some (.colorArr [⟨0, 0, 1⟩])
    else none⟩

/-- Audit-mode configuration: cp = 1005, target ΔT = 10, override on. -/
def cfgB : Config := ⟨1005, 10, 1, true⟩

theorem getAttr_setAttr_self (p : Prim) (n : String) (v : AttrVal) :
    getAttr (setAttr p n v) n = some v := by
  simp [getAttr, setAttr]

theorem getAttr_setAttr_of_ne (p : Prim) (n m : String) (v : AttrVal)
    (h : m ≠ n) : getAttr (setAttr p n v) m = getAttr p m := by
  simp [getAttr, setAttr, h]

theorem getAttr_removeAttr_self (p : Prim) (n : String) :
    getAttr (removeAttr p n) n = none := by
  simp [getAttr, removeAttr]

theorem getAttr_removeAttr_of_ne (p : Prim) (n m : String)
    (h : m ≠ n) : getAttr (removeAttr p n) m = getAttr p m := by
  simp [getAttr, removeAttr, h]

theorem path_setAttr (p : Prim) (n : String) (v : AttrVal) :
    (setAttr p n v).path = p.path := rfl

theorem valid_setAttr (p : Prim) (n : String) (v : AttrVal) :
    (setAttr p n v).valid = p.valid := rfl

theorem path_procPrim (cfg : Config) (p : Prim) :
    (procPrim cfg p).path = p.path := by
  unfold procPrim
  split <;> [skip; rfl]
  split <;> rfl

theorem valid_procPrim (cfg : Config) (p : Prim) :
    (procPrim cfg p).valid = p.valid := by
  unfold procPrim
  split <;> [skip; rfl]
  split <;> rfl

theorem path_restoreFun (o : Option AttrVal) (p : Prim) :
    (restoreFun o p).path = p.path := by
  unfold restoreFun
  split
  · cases o <;> rfl
  · rfl

theorem valid_restoreFun (o : Option AttrVal) (p : Prim) :
    (restoreFun o p).valid = p.valid := by
  unfold restoreFun
  split
  · cases o <;> rfl
  · rfl

/-- Decomposition of the loop body: the prim effect is cache-independent,
and the cache gains exactly the record of the prim's current display
color when the prim is colored and its path is not yet a key. -/
theorem processPrim_eq (cfg : Config) (p : Prim) (cache : Cache) :
    processPrim cfg p cache =
      (procPrim cfg p,
       if colored cfg p = true ∧ lookupCache cache p.path = none then
         cache ++ [(p.path, getAttr p "primvars:displayColor")]
       else cache) := by
  unfold processPrim procPrim colored delta_of power_of mdot_of
  cases hval : p.valid with
  | false => simp
  | true =>
    simp only [if_true]
    rcases hp : getAttr p "user:rackPowerW" with _ | v
    · simp [hp]
    rcases hf : v.asFloat with _ | power
    · simp [hp, hf]
    by_cases hpow : power ≤ 0
    · simp [hp, hf, hpow]
    by_cases hmode : cfg.mode = 0
    · by_cases ht : cfg.targetDt ≤ 0
      · simp [hp, hf, hpow, hmode, ht]
      · rcases hc : lookupCache cache p.path with _ | o <;>
          simp [hp, hf, hpow, hmode, ht, hc, apply_color_for_prim, path_setAttr,
            getAttr_setAttr_of_ne, Option.isSome]
    · rcases hm : getAttr p "user:mdotActual" with _ | mv
      · simp [hp, hf, hpow, hmode, hm]
      rcases hmf : mv.asFloat with _ | mdot
      · simp [hp, hf, hpow, hmode, hm, hmf]
      by_cases hmd : mdot ≤ 0
      · simp [hp, hf, hpow, hmode, hm, hmf, hmd]
      · rcases hc : lookupCache cache p.path with _ | o <;>
          simp [hp, hf, hpow, hmode, hm, hmf, hmd, hc, apply_color_for_prim,
            Option.isSome]

/-! ### Cache lookup lemmas -/

theorem lookupCache_nil (q : String) : lookupCache [] q = none := rfl

theorem lookupCache_cons (k : String) (o : Option AttrVal) (c : Cache)
    (q : String) :
    lookupCache ((k, o) :: c) q = if k = q then some o else lookupCache c q := by
  by_cases h : k = q
  · simp [lookupCache, List.find?_cons_of_pos, h]
  · simp [lookupCache, List.find?_cons_of_neg, h]

theorem lookupCache_eq_none_iff (c : Cache) (q : String) :
    lookupCache c q = none ↔ q ∉ c.map Prod.fst := by
  induction c with
  | nil => simp [lookupCache_nil]
  | cons e rest ih =>
    obtain ⟨k, o⟩ := e
    rw [lookupCache_cons]
    by_cases h : k = q
    · simp [h]
    · simp [h, ih, Ne.symm h]

theorem lookupCache_append_of_none (c d : Cache) (q : String)
    (h : lookupCache c q = none) :
    lookupCache (c ++ d) q = lookupCache d q := by
  induction c with
  | nil => simp
  | cons e rest ih =>
    obtain ⟨k, o⟩ := e
    rw [lookupCache_cons] at h
    rcases Decidable.em (k = q) with hk | hk
    · simp [hk] at h
    · rw [List.cons_append, lookupCache_cons, if_neg hk]
      exact ih (by simpa [hk] using h)

theorem lookupCache_append_of_some (c d : Cache) (q : String)
    (v : Option AttrVal) (h : lookupCache c q = some v) :
    lookupCache (c ++ d) q = some v := by
  induction c with
  | nil => simp [lookupCache_nil] at h
  | cons e rest ih =>
    obtain ⟨k, o⟩ := e
    rw [lookupCache_cons] at h
    rcases Decidable.em (k = q) with hk | hk
    · rw [List.cons_append, lookupCache_cons, if_pos hk]
      simpa [hk] using h
    · rw [List.cons_append, lookupCache_cons, if_neg hk]
      exact ih (by simpa [hk] using h)

theorem lookupCache_of_mem (c : Cache) (k : String) (v : Option AttrVal)
    (hnd : (c.map Prod.fst).Nodup) (h : (k, v) ∈ c) :
    lookupCache c k = some v := by
  induction c with
  | nil => simp at h
  | cons e rest ih =>
    obtain ⟨k', o⟩ := e
    rw [List.map_cons, List.nodup_cons] at hnd
    rcases List.mem_cons.mp h with heq | hmem
    · obtain ⟨h1, h2⟩ := Prod.mk.inj heq
      subst h1
      subst h2
      rw [lookupCache_cons, if_pos rfl]
    · have hk' : k' ≠ k := by
        intro hk
        apply hnd.1
        rw [hk]
        exact List.mem_map.mpr ⟨(k, v), hmem, rfl⟩
      rw [lookupCache_cons, if_neg hk']
      exact ih hnd.2 hmem

/-! ### Full-pass characterization -/

theorem fullPassAux_fst (cfg : Config) (stage : List Prim) (c : Cache) :
    (fullPassAux cfg stage c).1 = stage.map (procPrim cfg) := by
  induction stage generalizing c with
  | nil => rfl
  | cons p rest ih => simp [fullPassAux, processPrim_eq, ih]


theorem passRecords_keys (cfg : Config) (stage : List Prim) :
    (passRecords cfg stage).map Prod.fst =
      (stage.filter (colored cfg)).map Prim.path := by
  simp [passRecords]

theorem passRecords_keys_nodup (cfg : Config) (stage : List Prim)
    (hnd : (stage.map Prim.path).Nodup) :
    ((passRecords cfg stage).map Prod.fst).Nodup := by
  rw [passRecords_keys]
  exact hnd.sublist ((List.filter_sublist stage).map Prim.path)

theorem fullPassAux_snd (cfg : Config) (stage : List Prim) (c : Cache)
    (hnd : (stage.map Prim.path).Nodup)
    (hfresh : ∀ p ∈ stage, lookupCache c p.path = none) :
    (fullPassAux cfg stage c).2 = c ++ passRecords cfg stage := by
  induction stage generalizing c with
  | nil => simp [fullPassAux, passRecords]
  | cons p rest ih =>
    have hp : lookupCache c p.path = none := hfresh p (List.mem_cons_self p rest)
    have hnd' : (rest.map Prim.path).Nodup := (List.nodup_cons.mp hnd).2
    have hpnin : p.path ∉ rest.map Prim.path := (List.nodup_cons.mp hnd).1
    simp only [fullPassAux, processPrim_eq]
    by_cases hcol : colored cfg p = true
    · rw [if_pos ⟨hcol, hp⟩]
      rw [ih (c ++ [(p.path, getAttr p "primvars:displayColor")]) hnd' ?fresh]
      case fresh =>
        intro q hq
        rw [lookupCache_append_of_none c _ _ (hfresh q (List.mem_cons_of_mem p hq))]
        rw [lookupCache_cons, if_neg, lookupCache_nil]
        intro hpq
        exact hpnin (hpq ▸ List.mem_map.mpr ⟨q, hq, rfl⟩)
      simp [passRecords, List.filter_cons, hcol]
    · rw [if_neg (fun hh => hcol hh.1)]
      rw [ih c hnd' (fun q hq => hfresh q (List.mem_cons_of_mem p hq))]
      simp [passRecords, List.filter_cons, hcol]

/-! ### Facts about the colored predicate and the per-prim effect -/

theorem colored_spec (cfg : Config) (p : Prim) (h : colored cfg p = true) :
    p.valid = true ∧ 0 < power_of p ∧
      (cfg.mode = 0 → 0 < cfg.targetDt) ∧
      (cfg.mode ≠ 0 → 0 < mdot_of p) := by
  unfold colored at h
  cases hval : p.valid
  · simp [hval] at h
  · rw [if_pos hval] at h
    rcases hp : getAttr p "user:rackPowerW" with _ | v
    · simp only [hp] at h
      simp at h
    simp only [hp] at h
    rcases hf : v.asFloat with _ | power
    · simp only [hf] at h
      simp at h
    simp only [hf] at h
    by_cases hpow : power ≤ 0
    · rw [if_pos hpow] at h
      simp at h
    rw [if_neg hpow] at h
    refine ⟨rfl, ?_, ?_, ?_⟩
    · simp [power_of, hp, hf]
      exact lt_of_not_ge hpow
    · intro hm
      rw [if_pos hm] at h
      have := of_decide_eq_true h
      exact lt_of_not_ge this
    · intro hm
      rw [if_neg hm] at h
      rcases hma : getAttr p "user:mdotActual" with _ | mv
      · simp only [hma] at h
        simp at h
      simp only [hma] at h
      rcases hmf : mv.asFloat with _ | mdot
      · simp only [hmf] at h
        simp at h
      simp only [hmf] at h
      simp [mdot_of, hma, hmf]
      exact lt_of_not_ge (of_decide_eq_true h)

theorem procPrim_of_not_colored (cfg : Config) (p : Prim)
    (h : colored cfg p = false) : procPrim cfg p = p := by
  unfold procPrim
  rw [h]
  simp

theorem getAttr_procPrim_dc (cfg : Config) (p : Prim)
    (h : colored cfg p = true) :
    getAttr (procPrim cfg p) "primvars:displayColor" =
      some (.colorArr [colorOf (classify (delta_of cfg p) cfg.targetDt)]) := by
  unfold procPrim
  rw [h]
  simp [getAttr_setAttr_self]

theorem getAttr_procPrim_frame (cfg : Config) (p : Prim) (n : String)
    (h1 : n ≠ "user:mdotRequired") (h2 : n ≠ "primvars:displayColor") :
    getAttr (procPrim cfg p) n = getAttr p n := by
  unfold procPrim
  by_cases h : colored cfg p = true
  · rw [if_pos h, getAttr_setAttr_of_ne _ _ _ _ h2]
    by_cases hm : cfg.mode = 0
    · rw [if_pos hm, getAttr_setAttr_of_ne _ _ _ _ h1]
    · rw [if_neg hm]
  · rw [if_neg h]

/-! ### Restore-pass characterization -/

theorem updateFirstAt_of_nodup (st : List Prim) (k : String) (f : Prim → Prim)
    (hnd : (st.map Prim.path).Nodup) :
    updateFirstAt st k f = st.map (fun p => if p.path = k then f p else p) := by
  induction st with
  | nil => rfl
  | cons p rest ih =>
    rw [List.map_cons, List.nodup_cons] at hnd
    simp only [updateFirstAt]
    by_cases h : p.path = k
    · rw [if_pos h, List.map_cons, if_pos h]
      have hrest : ∀ q ∈ rest, (if q.path = k then f q else q) = q := by
        intro q hq
        rw [if_neg]
        intro hqk
        apply hnd.1
        rw [← hqk] at h
        rw [h]
        exact List.mem_map.mpr ⟨q, hq, rfl⟩
      rw [List.map_congr_left hrest]
      simp
    · rw [if_neg h, List.map_cons, if_neg h, ih hnd.2]

theorem restore_fold_eq (cache : Cache) (st : List Prim)
    (hst : (st.map Prim.path).Nodup) (hc : (cache.map Prod.fst).Nodup) :
    cache.foldl (fun acc e => restoreEntry acc e.1 e.2) st
      = st.map (restoreAs cache) := by
  induction cache generalizing st with
  | nil =>
    simp only [List.foldl_nil]
    have hid : ∀ p ∈ st, p = restoreAs [] p := fun p _ => rfl
    rw [show st.map (restoreAs []) = st.map (fun p => p) from
      (List.map_congr_left (fun p hp => (hid p hp).symm))]
    simp
  | cons e rest ih =>
    obtain ⟨k, o⟩ := e
    rw [List.map_cons, List.nodup_cons] at hc
    simp only [List.foldl_cons]
    rw [restoreEntry, updateFirstAt_of_nodup st k (restoreFun o) hst]
    have hpaths : (st.map (fun p => if p.path = k then restoreFun o p else p)).map
        Prim.path = st.map Prim.path := by
      rw [List.map_map]
      apply List.map_congr_left
      intro p _
      by_cases h : p.path = k <;> simp [h, path_restoreFun]
    rw [ih _ (by rw [hpaths]; exact hst) hc.2, List.map_map]
    apply List.map_congr_left
    intro p _
    simp only [Function.comp_apply]
    by_cases h : p.path = k
    · have hnone : lookupCache rest k = none :=
        (lookupCache_eq_none_iff rest k).mpr hc.1
      rw [if_pos h]
      simp [restoreAs, path_restoreFun, h, hnone, lookupCache_cons]
    · rw [if_neg h]
      simp [restoreAs, lookupCache_cons, Ne.symm h]

theorem classify_self (t : ℚ) (ht : 0 < t) : classify t t = .Match := by
  unfold classify
  rw [if_neg (not_le.mpr ht), if_neg (by norm_num [tol]), if_pos (by norm_num [tol])]

/-- C1: for every deltaT and targetDeltaT > 0 the classification returns
exactly one of Under, Match, Over; the three bands partition the line
(Under iff deltaT < target - tol, Match iff target - tol ≤ deltaT ≤
target + tol, Over iff target + tol < deltaT); at the boundary
deltaT = target - tol exactly, the result is Match, not Under. -/
theorem classify_total_bands (d t : ℚ) (ht : 0 < t) :
    (classify d t = .Under ∨ classify d t = .Match ∨ classify d t = .Over) ∧
    (classify d t = .Under ↔ d < t - tol) ∧
    (classify d t = .Match ↔ t - tol ≤ d ∧ d ≤ t + tol) ∧
    (classify d t = .Over ↔ t + tol < d) ∧
    classify (t - tol) t = .Match := by
  have htol : (0:ℚ) < tol := by norm_num [tol]
  have habs : (|d - t| ≤ tol) ↔ t - tol ≤ d ∧ d ≤ t + tol := by
    rw [abs_le]
    constructor <;> rintro ⟨a, b⟩ <;> exact ⟨by linarith, by linarith⟩
  have hm : classify (t - tol) t = .Match := by
    unfold classify
    rw [if_neg (not_le.mpr ht), if_neg (lt_irrefl _),
      if_pos (by rw [abs_le]; constructor <;> norm_num [tol])]
  unfold classify
  rw [if_neg (not_le.mpr ht)]
  by_cases h1 : d < t - tol
  · rw [if_pos h1]
    exact ⟨Or.inl rfl, by simp [h1],
      ⟨fun hc => by simp at hc, fun a => absurd a.1 (by linarith)⟩,
      ⟨fun hc => by simp at hc, fun a => absurd h1 (by linarith)⟩, hm⟩
  · by_cases h2 : d ≤ t + tol
    · rw [if_neg h1, if_pos (habs.mpr ⟨by linarith, h2⟩)]
      exact ⟨Or.inr (Or.inl rfl),
        ⟨fun hc => by simp at hc, fun a => absurd a h1⟩,
        ⟨fun _ => ⟨by linarith, h2⟩, fun _ => rfl⟩,
        ⟨fun hc => by simp at hc, fun a => absurd h2 (by linarith)⟩, hm⟩
    · rw [if_neg h1, if_neg (fun hc => h2 (habs.mp hc).2)]
      exact ⟨Or.inr (Or.inr rfl),
        ⟨fun hc => by simp at hc, fun a => absurd a h1⟩,
        ⟨fun hc => by simp at hc, fun a => absurd a.2 h2⟩,
        ⟨fun _ => not_le.mp h2, fun _ => rfl⟩, hm⟩

theorem classify_total_bands_witness :
    (0:ℚ) < 10 ∧ classify (10 - tol) 10 = .Match ∧ classify 5 10 = .Under :=
  ⟨by norm_num, (classify_total_bands 5 10 (by norm_num)).2.2.2.2,
    (classify_total_bands 5 10 (by norm_num)).2.1.mpr (by norm_num [tol])⟩

/-- C2: in design mode, an entity with positive heat load is skipped
entirely when the target is non-positive; otherwise the engine writes
mdotRequired = heatLoad / (cp * targetDeltaT) to `user:mdotRequired`,
classifies with the target itself as ΔT, and the entity is always
classified Match (colored yellow). -/
theorem design_mode_spec (cfg : Config) (p : Prim) (c : Cache) (P : ℚ)
    (hmode : cfg.mode = 0) (hval : p.valid = true)
    (hp : getAttr p "user:rackPowerW" = some (.num P)) (hP : 0 < P)
    (hcp : cpFloor ≤ cfg.cp) :
    (cfg.targetDt ≤ 0 → processPrim cfg p c = (p, c)) ∧
    (0 < cfg.targetDt →
      getAttr (processPrim cfg p c).1 "user:mdotRequired" =
        some (.num (P / (cfg.cp * cfg.targetDt))) ∧
      classify cfg.targetDt cfg.targetDt = .Match ∧
      getAttr (processPrim cfg p c).1 "primvars:displayColor" =
        some (.colorArr [colorOf .Match])) := by
  constructor
  · intro ht
    unfold processPrim
    rw [if_pos hval, hp]
    simp [AttrVal.asFloat, not_le.mpr hP, hmode, ht]
  · intro ht
    have hmax : max cfg.cp cpFloor = cfg.cp := max_eq_left hcp
    have hfst : (processPrim cfg p c).1 = procPrim cfg p := by
      rw [processPrim_eq]
    have hcol : colored cfg p = true := by
      unfold colored
      rw [if_pos hval, hp]
      simp [AttrVal.asFloat, not_le.mpr hP, hmode, not_le.mpr ht]
    rw [hfst]
    refine ⟨?_, classify_self _ ht, ?_⟩
    · unfold procPrim
      rw [if_pos hcol, if_pos hmode,
        getAttr_setAttr_of_ne _ _ _ _ (by decide), getAttr_setAttr_self]
      simp [power_of, hp, AttrVal.asFloat, hmax]
    · rw [getAttr_procPrim_dc cfg p hcol]
      unfold delta_of
      rw [if_pos hmode, classify_self _ ht]

theorem design_mode_spec_witness :
    getAttr
      (processPrim ⟨1005, 10, 0, true⟩
        ⟨"/rack", true, fun n => if n = "user:rackPowerW"
          then some (.num 1000) else none⟩ []).1 "user:mdotRequired" =
      some (.num (1000 / (1005 * 10))) := by
  have h := design_mode_spec ⟨1005, 10, 0, true⟩
    ⟨"/rack", true, fun n => if n = "user:rackPowerW"
      then some (.num 1000) else none⟩ [] 1000
    rfl rfl (by simp [getAttr]) (by norm_num) (by norm_num [cpFloor])
  exact (h.2 (by norm_num)).1

/-- C3: in audit mode, an entity with positive heat load is skipped when
`user:mdotActual` is absent, unparsable or non-positive; otherwise no
attribute other than the display color is written and the entity is
colored by classifying deltaT = heatLoad / (cp * mdotActual) against
the target. -/
theorem audit_mode_spec (cfg : Config) (p : Prim) (c : Cache) (P : ℚ)
    (hmode : cfg.mode ≠ 0) (hval : p.valid = true)
    (hp : getAttr p "user:rackPowerW" = some (.num P)) (hP : 0 < P)
    (hcp : cpFloor ≤ cfg.cp) :
    (getAttr p "user:mdotActual" = none → processPrim cfg p c = (p, c)) ∧
    (∀ mv, getAttr p "user:mdotActual" = some mv → mv.asFloat = none →
      processPrim cfg p c = (p, c)) ∧
    (∀ m, getAttr p "user:mdotActual" = some (.num m) → m ≤ 0 →
      processPrim cfg p c = (p, c)) ∧
    (∀ m, getAttr p "user:mdotActual" = some (.num m) → 0 < m →
      (∀ n, n ≠ "primvars:displayColor" →
        getAttr (processPrim cfg p c).1 n = getAttr p n) ∧
      getAttr (processPrim cfg p c).1 "primvars:displayColor" =
        some (.colorArr [colorOf (classify (P / (cfg.cp * m)) cfg.targetDt)])) := by
  have hbase : processPrim cfg p c =
      (if p.valid then
        match getAttr p "user:mdotActual" with
        | none => (p, c)
        | some mv =>
          match mv.asFloat with
          | none => (p, c)
          | some mdot =>
            if mdot ≤ 0 then (p, c)
            else apply_color_for_prim p (P / (max cfg.cp cpFloor * mdot))
              cfg.targetDt c
      else (p, c)) := by
    unfold processPrim
    rw [hp]
    simp [AttrVal.asFloat, not_le.mpr hP, hmode]
  have hmax : max cfg.cp cpFloor = cfg.cp := max_eq_left hcp
  refine ⟨?_, ?_, ?_, ?_⟩
  · intro hma
    rw [hbase, if_pos hval, hma]
  · intro mv hma hmf
    rw [hbase, if_pos hval, hma]
    simp [hmf]
  · intro m hma hm
    rw [hbase, if_pos hval, hma]
    simp [AttrVal.asFloat, hm]
  · intro m hma hm
    have hcol : colored cfg p = true := by
      unfold colored
      rw [if_pos hval, hp]
      simp [AttrVal.asFloat, not_le.mpr hP, hmode, hma, not_le.mpr hm]
    have hfst : (processPrim cfg p c).1 = procPrim cfg p := by
      rw [processPrim_eq]
    constructor
    · intro n hn
      rw [hfst]
      unfold procPrim
      rw [if_pos hcol, if_neg hmode, getAttr_setAttr_of_ne _ _ _ _ hn]
    · rw [hfst, getAttr_procPrim_dc cfg p hcol]
      unfold delta_of
      rw [if_neg hmode]
      simp [power_of, mdot_of, hp, hma, AttrVal.asFloat, hmax]

theorem audit_mode_spec_witness :
    getAttr (processPrim ⟨1005, 10, 1, true⟩
      ⟨"/rack", true, fun n => if n = "user:rackPowerW" then some (.num 1000)
        else if n = "user:mdotActual" then some (.num (1/20)) else none⟩ []).1
      "primvars:displayColor" = some (.colorArr [colorOf .Over]) := by
  have h := audit_mode_spec ⟨1005, 10, 1, true⟩
    ⟨"/rack", true, fun n => if n = "user:rackPowerW" then some (.num 1000)
      else if n = "user:mdotActual" then some (.num (1/20)) else none⟩ [] 1000
    (by decide) rfl (by simp [getAttr]) (by norm_num) (by norm_num [cpFloor])
  rw [(h.2.2.2 (1/20) (by simp [getAttr]) (by norm_num)).2]
  have hcl : classify ((1000:ℚ) / (1005 * (1/20))) 10 = .Over := by
    unfold classify
    rw [if_neg (by norm_num), if_neg (by norm_num [tol]),
      if_neg (by rw [abs_le]; norm_num [tol])]
  rw [hcl]

/-- C4: during a full pass, an entity whose heat-load attribute is
missing, unparsable, or non-positive is skipped silently: the loop body
returns the prim and the cache unchanged (no computation, no write, no
cache entry, no color change), and the pass continues with the
remaining entities. -/
theorem skip_bad_heat_load (cfg : Config) (p : Prim) (c : Cache)
    (rest : List Prim) (hval : p.valid = true) :
    (getAttr p "user:rackPowerW" = none → processPrim cfg p c = (p, c)) ∧
    (∀ v, getAttr p "user:rackPowerW" = some v → v.asFloat = none →
      processPrim cfg p c = (p, c)) ∧
    (∀ q, getAttr p "user:rackPowerW" = some (.num q) → q ≤ 0 →
      processPrim cfg p c = (p, c)) ∧
    (getAttr p "user:rackPowerW" = none →
      fullPassAux cfg (p :: rest) c =
        (p :: (fullPassAux cfg rest c).1, (fullPassAux cfg rest c).2)) := by
  have h1 : getAttr p "user:rackPowerW" = none → processPrim cfg p c = (p, c) := by
    intro hp
    unfold processPrim
    rw [if_pos hval, hp]
  refine ⟨h1, ?_, ?_, ?_⟩
  · intro v hp hf
    unfold processPrim
    rw [if_pos hval, hp]
    simp [hf]
  · intro q hp hq
    unfold processPrim
    rw [if_pos hval, hp]
    simp [AttrVal.asFloat, hq]
  · intro hp
    simp only [fullPassAux, h1 hp]

theorem skip_bad_heat_load_witness :
    processPrim ⟨1005, 10, 1, true⟩ ⟨"/empty", true, fun _ => none⟩ [] =
      (⟨"/empty", true, fun _ => none⟩, []) :=
  (skip_bad_heat_load ⟨1005, 10, 1, true⟩ ⟨"/empty", true, fun _ => none⟩ [] []
    rfl).1 rfl

/-- C8: when targetDeltaT = 0, the classification returns Neutral for
every ΔT, and every entity the pass processes either keeps its display
color (skipped) or receives exactly the Neutral gray, in either mode. -/
theorem degenerate_target_neutral (cfg : Config) (p : Prim) (c : Cache)
    (d : ℚ) (h : cfg.targetDt = 0) :
    classify d cfg.targetDt = .Neutral ∧
    (getAttr (processPrim cfg p c).1 "primvars:displayColor" =
        getAttr p "primvars:displayColor" ∨
      getAttr (processPrim cfg p c).1 "primvars:displayColor" =
        some (.colorArr [colorOf .Neutral])) := by
  have hcl : ∀ d' : ℚ, classify d' cfg.targetDt = .Neutral := by
    intro d'
    unfold classify
    rw [if_pos (le_of_eq h)]
  have hfst : (processPrim cfg p c).1 = procPrim cfg p := by
    rw [processPrim_eq]
  refine ⟨hcl d, ?_⟩
  by_cases hcol : colored cfg p = true
  · right
    rw [hfst, getAttr_procPrim_dc cfg p hcol, hcl]
  · left
    rw [hfst, procPrim_of_not_colored cfg p (Bool.not_eq_true _ ▸ hcol)]

theorem degenerate_target_neutral_witness :
    classify 7 (⟨1005, 0, 1, true⟩ : Config).targetDt = .Neutral ∧
    getAttr (processPrim ⟨1005, 0, 1, true⟩
      ⟨"/rack", true, fun n => if n = "user:rackPowerW" then some (.num 1000)
        else if n = "user:mdotActual" then some (.num (1/20)) else none⟩ []).1
      "primvars:displayColor" = some (.colorArr [colorOf .Neutral]) := by
  refine ⟨(degenerate_target_neutral ⟨1005, 0, 1, true⟩
    ⟨"/rack", true, fun n => if n = "user:rackPowerW" then some (.num 1000)
      else if n = "user:mdotActual" then some (.num (1/20)) else none⟩ [] 7
    rfl).1, ?_⟩
  have hcol : colored ⟨1005, 0, 1, true⟩
      ⟨"/rack", true, fun n => if n = "user:rackPowerW" then some (.num 1000)
        else if n = "user:mdotActual" then some (.num (1/20)) else none⟩ = true := by
    unfold colored
    simp [getAttr, AttrVal.asFloat]
  have hfst : (processPrim ⟨1005, 0, 1, true⟩
      ⟨"/rack", true, fun n => if n = "user:rackPowerW" then some (.num 1000)
        else if n = "user:mdotActual" then some (.num (1/20)) else none⟩ []).1 =
      procPrim ⟨1005, 0, 1, true⟩
      ⟨"/rack", true, fun n => if n = "user:rackPowerW" then some (.num 1000)
        else if n = "user:mdotActual" then some (.num (1/20)) else none⟩ := by
    rw [processPrim_eq]
  rw [hfst, getAttr_procPrim_dc _ _ hcol]
  have hcl : classify (delta_of ⟨1005, 0, 1, true⟩
      ⟨"/rack", true, fun n => if n = "user:rackPowerW" then some (.num 1000)
        else if n = "user:mdotActual" then some (.num (1/20)) else none⟩)
      (⟨1005, 0, 1, true⟩ : Config).targetDt = .Neutral := by
    unfold classify
    rw [if_pos le_rfl]
  rw [hcl]

/-- C10: with no stage loaded both entry points return immediately:
the recompute entry point changes nothing, and the restore entry point
performs no restores and leaves the override cache exactly as it was. -/
theorem no_stage_noop (cfg : Config) (c : Cache) :
    recompute_and_color cfg ⟨none, c⟩ = ⟨none, c⟩ ∧
    restore_colors ⟨none, c⟩ = ⟨none, c⟩ :=
  ⟨rfl, rfl⟩

/-- C9: a full pass writes only `user:mdotRequired` and
`primvars:displayColor`: every other attribute of every entity,
including heat load and actual flow, is unchanged. -/
theorem full_pass_frame (cfg : Config) (stage : List Prim) (c₀ : Cache)
    (henable : cfg.enableOverride = true) (n : String)
    (h1 : n ≠ "user:mdotRequired") (h2 : n ≠ "primvars:displayColor") :
    ∃ st', (recompute_and_color cfg ⟨some stage, c₀⟩).stage = some st' ∧
      List.Forall₂ (fun p q => q.path = p.path ∧ getAttr q n = getAttr p n)
        stage st' := by
  refine ⟨stage.map (procPrim cfg), ?_, ?_⟩
  · simp [recompute_and_color, henable, fullPassAux_fst]
  · rw [List.forall₂_map_right_iff]
    rw [List.forall₂_same]
    intro p _
    exact ⟨path_procPrim cfg p, getAttr_procPrim_frame cfg p n h1 h2⟩

theorem full_pass_frame_witness :
    ∃ st', (recompute_and_color ⟨1005, 10, 1, true⟩
        ⟨some [⟨"/rack", true, fun m =>
          if m = "user:rackPowerW" then some (.num 1000) else none⟩], []⟩).stage =
        some st' ∧
      List.Forall₂ (fun p q => q.path = p.path ∧
          getAttr q "user:rackPowerW" = getAttr p "user:rackPowerW")
        [⟨"/rack", true, fun m =>
          if m = "user:rackPowerW" then some (.num 1000) else none⟩] st' :=
  full_pass_frame ⟨1005, 10, 1, true⟩
    [⟨"/rack", true, fun m =>
      if m = "user:rackPowerW" then some (.num 1000) else none⟩] [] rfl
    "user:rackPowerW" (by decide) (by decide)

theorem path_restoreAs (c : Cache) (p : Prim) :
    (restoreAs c p).path = p.path := by
  unfold restoreAs
  rcases lookupCache c p.path with _ | o
  · rfl
  · exact path_restoreFun o p

/-- C5: for every cache state, the restore pass over a loaded stage
restores each cached entity: an absent marker removes the display-color
attribute, a cached color is written back (creating the attribute if it
no longer exists); cache entries whose prim does not resolve or is
invalid are skipped without aborting the remaining restores; afterwards
the cache is empty. -/
theorem restore_all_spec (st : List Prim) (cache : Cache)
    (hst : (st.map Prim.path).Nodup) (hc : (cache.map Prod.fst).Nodup) :
    (restore_colors ⟨some st, cache⟩).origColors = [] ∧
    (restore_colors ⟨some st, cache⟩).stage = some (st.map (restoreAs cache)) ∧
    ∀ p ∈ st,
      (lookupCache cache p.path = none → restoreAs cache p = p) ∧
      (∀ o, lookupCache cache p.path = some o → p.valid = false →
        restoreAs cache p = p) ∧
      (∀ o, lookupCache cache p.path = some o → p.valid = true →
        getAttr (restoreAs cache p) "primvars:displayColor" = o ∧
        ∀ n, n ≠ "primvars:displayColor" →
          getAttr (restoreAs cache p) n = getAttr p n) := by
  refine ⟨rfl, ?_, ?_⟩
  · show some ((cache.foldl (fun acc e => restoreEntry acc e.1 e.2) st)) = _
    rw [restore_fold_eq cache st hst hc]
  · intro p _
    refine ⟨?_, ?_, ?_⟩
    · intro hl
      unfold restoreAs
      rw [hl]
    · intro o hl hv
      unfold restoreAs
      rw [hl]
      unfold restoreFun
      rw [hv]
      simp
    · intro o hl hv
      unfold restoreAs
      rw [hl]
      unfold restoreFun
      rw [hv]
      simp only [if_true]
      rcases o with _ | v
      · exact ⟨getAttr_removeAttr_self p _,
          fun n hn => getAttr_removeAttr_of_ne p _ n hn⟩
      · exact ⟨getAttr_setAttr_self p _ v,
          fun n hn => getAttr_setAttr_of_ne p _ n v hn⟩

theorem restore_all_spec_witness :
    (restore_colors ⟨some [⟨"/a", true, fun _ => none⟩],
        [("/a", some (.colorArr [⟨0, 0, 1⟩])), ("/gone", none)]⟩).origColors = [] ∧
    getAttr (restoreAs [("/a", some (.colorArr [⟨0, 0, 1⟩])), ("/gone", none)]
        ⟨"/a", true, fun _ => none⟩) "primvars:displayColor" =
      some (.colorArr [⟨0, 0, 1⟩]) := by
  have h := restore_all_spec [⟨"/a", true, fun _ => none⟩]
    [("/a", some (.colorArr [⟨0, 0, 1⟩])), ("/gone", none)]
    (by simp) (by simp)
  refine ⟨h.1, ?_⟩
  exact ((h.2.2 ⟨"/a", true, fun _ => none⟩ (by simp)).2.2
    (some (.colorArr [⟨0, 0, 1⟩]))
    (by simp [lookupCache_cons]) rfl).1

/-- C7: enabling annotation (which runs one full pass) and then
disabling it (which runs the restore pass), with no configuration
change in between, returns every entity's display color, or its
absence, to exactly its pre-enable state, and leaves the cache empty. -/
theorem toggle_round_trip (cfg : Config) (stage : List Prim)
    (henable : cfg.enableOverride = true)
    (hnd : (stage.map Prim.path).Nodup) :
    (recompute_and_color ⟨cfg.cp, cfg.targetDt, cfg.mode, false⟩
        (recompute_and_color cfg ⟨some stage, []⟩)).origColors = [] ∧
    ∃ st₂, (recompute_and_color ⟨cfg.cp, cfg.targetDt, cfg.mode, false⟩
        (recompute_and_color cfg ⟨some stage, []⟩)).stage = some st₂ ∧
      List.Forall₂ (fun p q => q.path = p.path ∧
          getAttr q "primvars:displayColor" = getAttr p "primvars:displayColor")
        stage st₂ := by
  have hsnd := fullPassAux_snd cfg stage [] hnd (fun p _ => rfl)
  have h1 : recompute_and_color cfg ⟨some stage, []⟩ =
      ⟨some (stage.map (procPrim cfg)), passRecords cfg stage⟩ := by
    simp [recompute_and_color, henable, fullPassAux_fst, hsnd]
  rw [h1]
  have h2 : recompute_and_color ⟨cfg.cp, cfg.targetDt, cfg.mode, false⟩
      ⟨some (stage.map (procPrim cfg)), passRecords cfg stage⟩ =
      restore_colors ⟨some (stage.map (procPrim cfg)), passRecords cfg stage⟩ := by
    simp [recompute_and_color, restore_colors]
  rw [h2]
  have hst1 : (stage.map (procPrim cfg)).map Prim.path = stage.map Prim.path := by
    rw [List.map_map]
    exact List.map_congr_left (fun p _ => path_procPrim cfg p)
  have hckeys := passRecords_keys_nodup cfg stage hnd
  have h3 : (restore_colors
      ⟨some (stage.map (procPrim cfg)), passRecords cfg stage⟩).stage =
      some ((stage.map (procPrim cfg)).map (restoreAs (passRecords cfg stage))) := by
    show some _ = _
    rw [restore_fold_eq (passRecords cfg stage) (stage.map (procPrim cfg))
      (by rw [hst1]; exact hnd) hckeys]
  refine ⟨rfl, (stage.map (procPrim cfg)).map (restoreAs (passRecords cfg stage)),
    h3, ?_⟩
  rw [List.map_map, List.forall₂_map_right_iff, List.forall₂_same]
  intro p hp
  refine ⟨?_, ?_⟩
  · show (restoreAs (passRecords cfg stage) (procPrim cfg p)).path = p.path
    rw [path_restoreAs, path_procPrim]
  · by_cases hcol : colored cfg p = true
    · have hmem : (p.path, getAttr p "primvars:displayColor") ∈
          passRecords cfg stage :=
        List.mem_map.mpr ⟨p, List.mem_filter.mpr ⟨hp, hcol⟩, rfl⟩
      have hl : lookupCache (passRecords cfg stage) p.path =
          some (getAttr p "primvars:displayColor") :=
        lookupCache_of_mem _ _ _ hckeys hmem
      show getAttr (restoreAs (passRecords cfg stage) (procPrim cfg p))
          "primvars:displayColor" = _
      unfold restoreAs
      rw [path_procPrim, hl]
      unfold restoreFun
      rw [valid_procPrim, (colored_spec cfg p hcol).1]
      simp only [if_true]
      rcases horig : getAttr p "primvars:displayColor" with _ | v
      · rw [getAttr_removeAttr_self]
      · rw [getAttr_setAttr_self]
    · have hpp : procPrim cfg p = p :=
        procPrim_of_not_colored cfg p (Bool.not_eq_true _ ▸ hcol)
      have hl : lookupCache (passRecords cfg stage) p.path = none := by
        rw [lookupCache_eq_none_iff, passRecords_keys]
        intro hmem
        rcases List.mem_map.mp hmem with ⟨q, hq, hqp⟩
        have hq' := List.mem_filter.mp hq
        have hqeq : q = p := List.inj_on_of_nodup_map hnd hq'.1 hp hqp
        rw [hqeq] at hq'
        exact hcol hq'.2
      show getAttr (restoreAs (passRecords cfg stage) (procPrim cfg p))
          "primvars:displayColor" = _
      rw [hpp]
      unfold restoreAs
      rw [hl]

theorem toggle_round_trip_witness :
    (recompute_and_color ⟨1005, 10, 1, false⟩
        (recompute_and_color ⟨1005, 10, 1, true⟩
          ⟨some [⟨"/rack", true, fun m =>
            if m = "user:rackPowerW" then some (.num 1000)
            else if m = "user:mdotActual" then some (.num (1/20))
            else none⟩], []⟩)).origColors = [] :=
  (toggle_round_trip ⟨1005, 10, 1, true⟩
    [⟨"/rack", true, fun m =>
      if m = "user:rackPowerW" then some (.num 1000)
      else if m = "user:mdotActual" then some (.num (1/20))
      else none⟩] rfl (by simp)).1



/-- C6 counterexample: within one enabled session consisting of two full
passes (a recompute is re-triggered without disabling in between), the
cached value for the entity IS overwritten: after the first pass the
cache holds the pre-override blue, after the second pass it holds the
red override color written by the first pass, not the color observed
before the session's first write. -/
theorem cache_session_overwrite_cex :
    getAttr rackP "primvars:displayColor" = some (.colorArr [⟨0, 0, 1⟩]) ∧
    (recompute_and_color cfgB ⟨some [rackP], []⟩).origColors =
      [("/rack", some (.colorArr [⟨0, 0, 1⟩]))] ∧
    (recompute_and_color cfgB
        (recompute_and_color cfgB ⟨some [rackP], []⟩)).origColors =
      [("/rack", some (.colorArr [⟨1, 0, 0⟩]))] ∧
    (AttrVal.colorArr [⟨1, 0, 0⟩]) ≠ .colorArr [⟨0, 0, 1⟩] := by
  have he : cfgB.enableOverride = true := rfl
  have hpath0 : rackP.path = "/rack" := rfl
  have hdc0 : getAttr rackP "primvars:displayColor" =
      some (.colorArr [⟨0, 0, 1⟩]) := by
    simp [rackP, getAttr]
  have hpwA : getAttr rackP "user:rackPowerW" = some (.num 1000) := by
    simp [rackP, getAttr]
  have hmaA : getAttr rackP "user:mdotActual" = some (.num (1/20)) := by
    simp [rackP, getAttr]
  have hcolA : colored cfgB rackP = true := by
    unfold colored
    rw [if_pos (show rackP.valid = true from rfl)]
    simp only [hpwA, hmaA]
    norm_num [AttrVal.asFloat, cfgB]
  have hpass1 : recompute_and_color cfgB ⟨some [rackP], []⟩ =
      ⟨some [procPrim cfgB rackP], [("/rack", some (.colorArr [⟨0, 0, 1⟩]))]⟩ := by
    have hsnd := fullPassAux_snd cfgB [rackP] [] (by simp) (fun p _ => rfl)
    simp [recompute_and_color, he, fullPassAux_fst, hsnd, passRecords,
      List.filter_cons, hcolA, hpath0, hdc0]
  have hval1 : (procPrim cfgB rackP).valid = true := by
    rw [valid_procPrim]
    rfl
  have hpath1 : (procPrim cfgB rackP).path = "/rack" := by
    rw [path_procPrim]
    rfl
  have hpw1 : getAttr (procPrim cfgB rackP) "user:rackPowerW" =
      some (.num 1000) := by
    rw [getAttr_procPrim_frame _ _ _ (by decide) (by decide)]
    simp [rackP, getAttr]
  have hma1 : getAttr (procPrim cfgB rackP) "user:mdotActual" =
      some (.num (1/20)) := by
    rw [getAttr_procPrim_frame _ _ _ (by decide) (by decide)]
    simp [rackP, getAttr]
  have hcol1 : colored cfgB (procPrim cfgB rackP) = true := by
    unfold colored
    rw [if_pos hval1]
    simp only [hpw1, hma1]
    norm_num [AttrVal.asFloat, cfgB]
  have hδ : delta_of cfgB rackP = 1000 / (1005 * (1/20)) := by
    unfold delta_of
    rw [if_neg (by decide), show power_of rackP = 1000 from
        by simp [power_of, rackP, getAttr, AttrVal.asFloat],
      show mdot_of rackP = 1/20 from
        by simp [mdot_of, rackP, getAttr, AttrVal.asFloat],
      show max cfgB.cp cpFloor = 1005 from
        max_eq_left (by norm_num [cfgB, cpFloor])]
  have hdc1 : getAttr (procPrim cfgB rackP) "primvars:displayColor" =
      some (.colorArr [⟨1, 0, 0⟩]) := by
    rw [getAttr_procPrim_dc _ _ hcolA, hδ]
    rw [show classify (1000 / (1005 * (1/20))) cfgB.targetDt = .Over from by
      unfold classify
      rw [if_neg (by norm_num [cfgB]), if_neg (by norm_num [cfgB, tol]),
        if_neg (by rw [abs_le]; norm_num [cfgB, tol])]]
    rfl
  have h2 : (recompute_and_color cfgB
      ⟨some [procPrim cfgB rackP],
        [("/rack", some (.colorArr [⟨0, 0, 1⟩]))]⟩).origColors =
      [("/rack", some (.colorArr [⟨1, 0, 0⟩]))] := by
    have hsnd2 := fullPassAux_snd cfgB [procPrim cfgB rackP] []
      (by simp) (fun p _ => rfl)
    simp [recompute_and_color, he, hsnd2, passRecords, List.filter_cons,
      hcol1, hpath1, hdc1]
  refine ⟨hdc0, ?_, ?_, by simp⟩
  · rw [hpass1]
  · rw [hpass1]
    exact h2

/-- C6 amended: within a single full pass each entity appears at most
once as a key of the override cache, and each cached value is exactly
the display color the entity carried before the pass touched it; across
an enabled session however every full pass clears and repopulates the
cache, so a later pass re-caches the then-current (already overridden)
color. -/
theorem cache_first_write_wins_within_pass (cfg : Config)
    (stage : List Prim) (c₀ : Cache)
    (henable : cfg.enableOverride = true)
    (hnd : (stage.map Prim.path).Nodup) :
    (((recompute_and_color cfg ⟨some stage, c₀⟩).origColors.map
      Prod.fst).Nodup) ∧
    ∀ e ∈ (recompute_and_color cfg ⟨some stage, c₀⟩).origColors,
      ∃ p ∈ stage, e.1 = p.path ∧ e.2 = getAttr p "primvars:displayColor" := by
  have hsnd := fullPassAux_snd cfg stage [] hnd (fun p _ => rfl)
  have h1 : (recompute_and_color cfg ⟨some stage, c₀⟩).origColors =
      passRecords cfg stage := by
    simp [recompute_and_color, henable, hsnd]
  rw [h1]
  refine ⟨passRecords_keys_nodup cfg stage hnd, ?_⟩
  intro e he
  rcases List.mem_map.mp he with ⟨q, hq, hqe⟩
  exact ⟨q, (List.mem_filter.mp hq).1, by rw [← hqe], by rw [← hqe]⟩

theorem cache_first_write_wins_within_pass_witness :
    ((recompute_and_color cfgB ⟨some [rackP], []⟩).origColors.map
      Prod.fst).Nodup :=
  (cache_first_write_wins_within_pass cfgB [rackP] [] rfl (by simp)).1
